import Mathlib

/-
  Shallow embedding of the go-dwarf frame-unwinding core:
  variable-length integer codec, location-expression evaluator,
  frame-description locator, CIE parser and CFA instruction replay.
  Go machine integers are modelled as Nat / Int with explicit
  reduction modulo 2^64 (or 2^8, 2^16) where Go arithmetic wraps.
-/

namespace GoDwarf

/-- Reinterpret the low 64 bits of a natural number as a signed two's-complement
64-bit value (the Go conversion int64(u) for an unsigned 64-bit u). -/
def int64OfBits (n : Nat) : Int :=
  if n % 2^64 < 2^63 then ((n % 2^64 : Nat) : Int) else ((n % 2^64 : Nat) : Int) - 2^64

/-- Wrap an integer into the signed 64-bit range (Go int64 arithmetic wraps on overflow). -/
def int64Wrap (x : Int) : Int := int64OfBits (x % 2^64).toNat

/-- Reinterpret a signed value as an unsigned 64-bit value (Go uintptr / uint64 conversion). -/
def uint64OfInt (x : Int) : Nat := (x % 2^64).toNat

/-- Reinterpret one byte as a Go int8 value. -/
def int8OfBits (n : Nat) : Int :=
  if n % 2^8 < 2^7 then ((n % 2^8 : Nat) : Int) else ((n % 2^8 : Nat) : Int) - 2^8

/-- Reinterpret a 16-bit pattern as a Go int16 value. -/
def int16OfBits (n : Nat) : Int :=
  if n % 2^16 < 2^15 then ((n % 2^16 : Nat) : Int) else ((n % 2^16 : Nat) : Int) - 2^16

/-- Continuation-bit mask of the base-128 encoding (source constant dw_LEB_EXTENSION). -/
def dw_LEB_EXTENSION : Nat := 0x80

/-- Payload mask of the base-128 encoding (source constant dw_LEB_BITS = 0xff ^ 0x80). -/
def dw_LEB_BITS : Nat := 0xff ^^^ dw_LEB_EXTENSION

/-- Accumulating loop of parseUnsignedLEB128 (loclist.go): the accumulator n and the
shift count are threaded explicitly; reading past the end of the input is the io.EOF
case, modelled as none. -/
def parseUnsignedLEB128Loop : List Nat → Nat → Nat → Option (Nat × List Nat)
  | [], _, _ => none
  | b :: rest, n, shift =>
    let n' := ((b &&& dw_LEB_BITS) <<< shift) % 2^64 ||| n
    if b &&& dw_LEB_EXTENSION = 0 then some (n', rest)
    else parseUnsignedLEB128Loop rest n' (shift + 7)

/-- parseUnsignedLEB128 from loclist.go, over a byte list instead of a bytes.Reader. -/
def parseUnsignedLEB128 (l : List Nat) : Option (Nat × List Nat) :=
  parseUnsignedLEB128Loop l 0 0

/-- Accumulating loop of parseSignedLEB128 (loclist.go).  On the terminating byte the
accumulated uint64 is reinterpreted as int64 and, if the sign bit of the last consumed
group is set, 1 << shift (as a wrapping int64) is subtracted. -/
def parseSignedLEB128Loop : List Nat → Nat → Nat → Option (Int × List Nat)
  | [], _, _ => none
  | b :: rest, n, shift =>
    let n' := ((b &&& dw_LEB_BITS) <<< shift) % 2^64 ||| n
    let shift' := shift + 7
    if b &&& dw_LEB_EXTENSION = 0 then
      let m := if (n' &&& (1 <<< (shift' - 1)) % 2^64) ≠ 0
               then int64Wrap (int64OfBits n' - int64OfBits ((1 <<< shift') % 2^64))
               else int64OfBits n'
      some (m, rest)
    else parseSignedLEB128Loop rest n' shift'

/-- parseSignedLEB128 from loclist.go, over a byte list instead of a bytes.Reader. -/
def parseSignedLEB128 (l : List Nat) : Option (Int × List Nat) :=
  parseSignedLEB128Loop l 0 0

/-- Mathematical value of a base-128 group list, least-significant group first:
the sum over all groups of (low 7 bits of the byte) * 2^(7*i). -/
def lebValue : List Nat → Nat
  | [] => 0
  | b :: rest => (b &&& dw_LEB_BITS) + 128 * lebValue rest

/-- Canonical signed base-128 encoder, with explicit fuel (10 bytes suffice for every
64-bit signed value): emit the low 7 bits per byte, arithmetically shift right by 7,
and stop once the remaining value is the pure sign extension of the emitted group. -/
def sleb128EncodeAux : Nat → Int → List Nat
  | 0, _ => []
  | fuel + 1, v =>
    let b := (v % 128).toNat
    let v' := v / 128
    if (v' = 0 ∧ b < 64) ∨ (v' = -1 ∧ 64 ≤ b) then [b]
    else (b + 128) :: sleb128EncodeAux fuel v'

/-- Canonical signed base-128 (SLEB128) encoding of an integer. -/
def sleb128Encode (v : Int) : List Nat := sleb128EncodeAux 10 v

/-- Byte order tag of a loaded debug-information region. -/
inductive ByteOrder where
  | little
  | big
deriving DecidableEq, Repr

/-- Error values of the embedded operations; each constructor stands for one
distinct error value produced by the source. -/
inductive DwarfError where
  | eof                          -- io.EOF
  | unexpectedEof                -- io.ErrUnexpectedEOF from a partial fixed-width read
  | entryTooShort                -- dwarf/unwind: entry too short
  | fdeTooShort                  -- dwarf/unwind: frame description entry too short
  | notCovered                   -- dwarf/unwind: frame data didn't include pc
  | noCIEFound                   -- dwarf/unwind: No CommonInformationEntry found
  | unsupportedVersion (v : Nat) -- dwarf/unwind: unsupported dwarf version
  | unsupportedAugmentation      -- dwarf/unwind: unhandled dwarf augmentation
  | unsupportedCFAOp (b : Nat)   -- Unsuported CFA op
  | unknownCFAOp (b : Nat)       -- dwarf/unwind: unknown op-code
  | invalidLocList               -- Invalid location list
  | unsupportedLocOp             -- Unsupported location OP
deriving DecidableEq, Repr

/-- Context of a location-expression evaluation (loclist.go locInfo). -/
structure locInfo where
  CanonicalFrameAddress : Nat

/-- Expression opcode: push a signed LEB128 constant (dw_OP_consts). -/
def dw_OP_consts : Nat := 0x11

/-- Expression opcode: pop two values, push their sum (dw_OP_plus). -/
def dw_OP_plus : Nat := 0x22

/-- Expression opcode: push the canonical frame address (dw_OP_call_frame_cfa). -/
def dw_OP_call_frame_cfa : Nat := 0x9c

/-- Main loop of parseLocList (loclist.go).  The expression stack holds Go int64
values, most recently pushed value first.  Fuel bounds the number of loop
iterations only, and none marks fuel exhaustion; every iteration consumes at
least one byte, so list length + 1 fuel always suffices. -/
def parseLocListLoop (info : locInfo) : Nat → List Nat → List Int → Option (Except DwarfError Nat)
  | 0, _, _ => none
  | _ + 1, [], stack =>
    match stack with
    | [v] => some (.ok (uint64OfInt v))
    | _ => some (.error .invalidLocList)
  | fuel + 1, b :: rest, stack =>
    if b = dw_OP_consts then
      match parseSignedLEB128 rest with
      | none => some (.error .eof)
      | some (n, rest1) => parseLocListLoop info fuel rest1 (n :: stack)
    else if b = dw_OP_plus then
      match stack with
      | a :: c :: stack1 => parseLocListLoop info fuel rest (int64Wrap (a + c) :: stack1)
      | _ => some (.error .invalidLocList)
    else if b = dw_OP_call_frame_cfa then
      parseLocListLoop info fuel rest (int64OfBits info.CanonicalFrameAddress :: stack)
    else
      some (.error .unsupportedLocOp)

/-- parseLocList (loclist.go): evaluate a location-expression byte sequence with
an initially empty stack. -/
def parseLocList (locList : List Nat) (info : locInfo) : Option (Except DwarfError Nat) :=
  parseLocListLoop info (locList.length + 1) locList []

/-- CFA opcode: no-op (dw_CFA_nop). -/
def dw_CFA_nop : Nat := 0x00

/-- CFA opcode: one-byte signed location advance (dw_CFA_advance_loc1). -/
def dw_CFA_advance_loc1 : Nat := 0x02

/-- CFA opcode: two-byte signed location advance (dw_CFA_advance_loc2). -/
def dw_CFA_advance_loc2 : Nat := 0x03

/-- CFA opcode: define CFA rule from register and offset (dw_CFA_def_cfa). -/
def dw_CFA_def_cfa : Nat := 0x0c

/-- CFA opcode: set the CFA offset from a signed factored operand
(dw_CFA_def_cfa_offset_sf). -/
def dw_CFA_def_cfa_offset_sf : Nat := 0x13

/-- Base of the inline location-advance opcode family (dw_CFA_advance_loc). -/
def dw_CFA_advance_loc : Nat := 0x40

/-- Base of the register-offset opcode family (dw_CFA_offset). -/
def dw_CFA_offset : Nat := 0x80

/-- CommonInformationEntry (unwind.go), with Go zero values as defaults. -/
structure CommonInformationEntry where
  CodeAlignmentFactor : Nat := 0
  DataAlignmentFactor : Int := 0
  ReturnColumn : Nat := 0
  InitialLocation : Nat := 0
  AddressRange : Nat := 0
  Instructions : List Nat := []
  StackRegister : Nat := 0
  StackOffset : Int := 0
  ColumnValue : Int := 0
  order : ByteOrder := .little
deriving DecidableEq, Repr

/-- The Data fields the unwind core reads: the raw frame section and byte order. -/
structure Data where
  frame : List Nat
  order : ByteOrder

/-- binary.Read of a uint32 from the head of a byte list: io.EOF when no bytes
remain, io.ErrUnexpectedEOF when one to three bytes remain. -/
def readUint32 (s : List Nat) (o : ByteOrder) : Except DwarfError (Nat × List Nat) :=
  match s with
  | b0 :: b1 :: b2 :: b3 :: rest =>
    match o with
    | .little => .ok (b0 + 256 * (b1 + 256 * (b2 + 256 * b3)), rest)
    | .big => .ok (b3 + 256 * (b2 + 256 * (b1 + 256 * b0)), rest)
  | [] => .error .eof
  | _ => .error .unexpectedEof

/-- binary.Read of a uint64 from the head of a byte list. -/
def readUint64 (s : List Nat) (o : ByteOrder) : Except DwarfError (Nat × List Nat) :=
  match s with
  | b0 :: b1 :: b2 :: b3 :: b4 :: b5 :: b6 :: b7 :: rest =>
    match o with
    | .little =>
      .ok (b0 + 256 * (b1 + 256 * (b2 + 256 * (b3 + 256 * (b4 + 256 * (b5 + 256 * (b6 + 256 * b7)))))), rest)
    | .big =>
      .ok (b7 + 256 * (b6 + 256 * (b5 + 256 * (b4 + 256 * (b3 + 256 * (b2 + 256 * (b1 + 256 * b0)))))), rest)
  | [] => .error .eof
  | _ => .error .unexpectedEof

/-- binary.Read of an int16 from the head of a byte list. -/
def readInt16 (s : List Nat) (o : ByteOrder) : Except DwarfError (Int × List Nat) :=
  match s with
  | b0 :: b1 :: rest =>
    match o with
    | .little => .ok (int16OfBits (b0 + 256 * b1), rest)
    | .big => .ok (int16OfBits (b1 + 256 * b0), rest)
  | [] => .error .eof
  | _ => .error .unexpectedEof

/-- bytes.Reader.Read into a fresh zero-initialized buffer of k bytes, with the
source's error handling: io.EOF only when no bytes remain at all; otherwise a
possibly short read whose byte count the caller ignores, leaving trailing zero
bytes in the buffer. -/
def readBuf (k : Nat) (s : List Nat) : Except DwarfError (List Nat) :=
  match s with
  | [] => .error .eof
  | _ => .ok (s.take k ++ List.replicate (k - s.length) 0)

/-- CommonInformationEntry.Update (unwind.go): interpret the CIE initial
instruction stream, seeding the baseline CFA rule.  The Go method loops until an
error is produced; reaching the end of the stream anywhere inside the loop body
surfaces as io.EOF, which the caller parseCommonInformationEntry treats as
success, so every io.EOF outcome is modelled as ok carrying the entry as updated
so far.  Fuel bounds loop iterations only; each iteration consumes at least one
byte. -/
def cieUpdateLoop : Nat → CommonInformationEntry → List Nat → Option (Except DwarfError CommonInformationEntry)
  | 0, _, _ => none
  | _ + 1, cie, [] => some (.ok cie)
  | fuel + 1, cie, b :: rest =>
    if b = dw_CFA_def_cfa then
      match parseUnsignedLEB128 rest with
      | none => some (.ok cie)
      | some (reg, rest1) =>
        match parseUnsignedLEB128 rest1 with
        | none => some (.ok cie)
        | some (val, rest2) =>
          cieUpdateLoop fuel { cie with StackRegister := reg, StackOffset := int64OfBits val } rest2
    else if b = dw_CFA_nop then
      cieUpdateLoop fuel cie rest
    else if b = (dw_CFA_offset + cie.ReturnColumn) % 256 then
      match parseSignedLEB128 rest with
      | none => some (.ok cie)
      | some (raw, rest1) =>
        cieUpdateLoop fuel { cie with ColumnValue := int64Wrap (raw * cie.DataAlignmentFactor) } rest1
    else
      some (.error (.unsupportedCFAOp b))

/-- Data.parseCommonInformationEntry (unwind.go): re-read the CIE record at byte
offset id of the frame region, validate header fields and run the baseline
interpreter over its initial instructions. -/
def parseCommonInformationEntry (d : Data) (id : Nat) : Except DwarfError CommonInformationEntry :=
  match readUint32 (d.frame.drop id) d.order with
  | .error e => .error e
  | .ok (length, s1) =>
    match readBuf length s1 with
    | .error e => .error e
    | .ok entry =>
      match readUint32 entry d.order with
      | .error e => .error e
      | .ok (mark, t1) =>
        if length < 4 ∨ mark ≠ 0xFFFFFFFF then .error .noCIEFound
        else
          match t1 with
          | [] => .error .eof
          | version :: t2 =>
            if version ≠ 3 then .error (.unsupportedVersion version)
            else
              match t2 with
              | [] => .error .eof
              | augmentation :: t3 =>
                if augmentation ≠ 0 then .error .unsupportedAugmentation
                else
                  match parseUnsignedLEB128 t3 with
                  | none => .error .eof
                  | some (codeAlignment, t4) =>
                    match parseSignedLEB128 t4 with
                    | none => .error .eof
                    | some (dataAlignment, t5) =>
                      match t5 with
                      | [] => .error .eof
                      | returnColumn :: t6 =>
                        match cieUpdateLoop (t6.length + 1)
                            { CodeAlignmentFactor := codeAlignment,
                              DataAlignmentFactor := dataAlignment,
                              ReturnColumn := returnColumn } t6 with
                        | none => .error .eof
                        | some (.ok cie1) => .ok cie1
                        | some (.error e) => .error e

/-- Main loop of CommonInformationEntry.CanonicalFrameAddress (unwind.go): replay
the FDE instruction stream, tracking the current location loc and the CFA offset.
Fuel bounds loop iterations only; each iteration consumes at least one byte. -/
def cfaReplayLoop (cie : CommonInformationEntry) (pc sp : Nat) :
    Nat → List Nat → Nat → Int → Option (Except DwarfError Nat)
  | 0, _, _, _ => none
  | _ + 1, [], _, offset => some (.ok (uint64OfInt (int64Wrap (int64OfBits sp + offset))))
  | fuel + 1, b :: rest, loc, offset =>
    if b = dw_CFA_def_cfa_offset_sf then
      match parseSignedLEB128 rest with
      | none => some (.error .eof)
      | some (delta, rest1) =>
        cfaReplayLoop cie pc sp fuel rest1 loc (int64Wrap (delta * cie.DataAlignmentFactor))
    else if loc > pc then
      some (.ok (uint64OfInt (int64Wrap (int64OfBits sp + offset))))
    else if b = dw_CFA_advance_loc1 then
      match rest with
      | [] => some (.error .eof)
      | db :: rest1 =>
        cfaReplayLoop cie pc sp fuel rest1
          ((loc + (uint64OfInt (int8OfBits db) * cie.CodeAlignmentFactor) % 2^64) % 2^64) offset
    else if b = dw_CFA_advance_loc2 then
      match readInt16 rest cie.order with
      | .error e => some (.error e)
      | .ok (delta, rest1) =>
        cfaReplayLoop cie pc sp fuel rest1
          ((loc + (uint64OfInt delta * cie.CodeAlignmentFactor) % 2^64) % 2^64) offset
    else if dw_CFA_advance_loc ≤ b ∧ b ≤ 0x80 then
      cfaReplayLoop cie pc sp fuel rest
        ((loc + ((b - 0x40) * cie.CodeAlignmentFactor) % 2^64) % 2^64) offset
    else
      some (.error (.unknownCFAOp b))

/-- CommonInformationEntry.CanonicalFrameAddress (unwind.go): replay the bound
FDE instruction stream from the CIE baseline. -/
def CommonInformationEntry.CanonicalFrameAddress (cie : CommonInformationEntry) (pc sp : Nat) :
    Option (Except DwarfError Nat) :=
  cfaReplayLoop cie pc sp (cie.Instructions.length + 1) cie.Instructions cie.InitialLocation cie.StackOffset

/-- Record-scan loop of Data.CanonicalFrameAddress (unwind.go).  Fuel bounds loop
iterations only; every iteration consumes at least eight bytes of the region. -/
def cfaScanLoop (d : Data) (pc sp : Nat) : Nat → List Nat → Option (Except DwarfError Nat)
  | 0, _ => none
  | fuel + 1, s =>
    match readUint32 s d.order with
    | .error e => some (.error e)
    | .ok (length, s1) =>
      if length < 4 then some (.error .entryTooShort)
      else
        match readUint32 s1 d.order with
        | .error e => some (.error e)
        | .ok (id, s2) =>
          if id = 0xFFFFFFFF then cfaScanLoop d pc sp fuel (s2.drop (length - 4))
          else if length < 20 then some (.error .fdeTooShort)
          else
            match readUint64 s2 d.order with
            | .error e => some (.error e)
            | .ok (pcstart, s3) =>
              match readUint64 s3 d.order with
              | .error e => some (.error e)
              | .ok (pccount, s4) =>
                if pcstart ≤ pc ∧ pc < (pcstart + pccount) % 2^64 then
                  match parseCommonInformationEntry d id with
                  | .error e => some (.error e)
                  | .ok cie =>
                    match readBuf (length - 20) s4 with
                    | .error e => some (.error e)
                    | .ok instrs =>
                      CommonInformationEntry.CanonicalFrameAddress
                        { cie with InitialLocation := pcstart, AddressRange := pccount,
                                   Instructions := instrs, order := d.order } pc sp
                else cfaScanLoop d pc sp fuel (s4.drop (length - 20))

/-- Data.CanonicalFrameAddress (unwind.go): scan the frame region for the FDE
covering pc and replay it. -/
def Data.CanonicalFrameAddress (d : Data) (pc sp : Nat) : Option (Except DwarfError Nat) :=
  cfaScanLoop d pc sp (d.frame.length + 1) d.frame

/-- Specification-side predicate: does the record scan encounter a
frame-description record whose half-open address interval contains pc?  Mirrors
the traversal of cfaScanLoop; any parse failure yields false. -/
def scanCoversLoop (o : ByteOrder) (pc : Nat) : Nat → List Nat → Bool
  | 0, _ => false
  | fuel + 1, s =>
    match readUint32 s o with
    | .error _ => false
    | .ok (length, s1) =>
      if length < 4 then false
      else
        match readUint32 s1 o with
        | .error _ => false
        | .ok (id, s2) =>
          if id = 0xFFFFFFFF then scanCoversLoop o pc fuel (s2.drop (length - 4))
          else if length < 20 then false
          else
            match readUint64 s2 o with
            | .error _ => false
            | .ok (pcstart, s3) =>
              match readUint64 s3 o with
              | .error _ => false
              | .ok (pccount, s4) =>
                if pcstart ≤ pc ∧ pc < (pcstart + pccount) % 2^64 then true
                else scanCoversLoop o pc fuel (s4.drop (length - 20))

/-- Does some frame-description record of the region cover pc? -/
def Data.covers (d : Data) (pc : Nat) : Bool :=
  scanCoversLoop d.order pc (d.frame.length + 1) d.frame

/-- Specification-side predicate, following the spec's words: the record scan
consumes complete records, never finds a record covering pc, and reaches the end
of the region exactly — the remainder is empty when the next header read is
attempted.  Mirrors the traversal of cfaScanLoop. -/
def scanReachesEndLoop (o : ByteOrder) (pc : Nat) : Nat → List Nat → Bool
  | 0, _ => false
  | fuel + 1, s =>
    match s with
    | [] => true
    | _ =>
      match readUint32 s o with
      | .error _ => false
      | .ok (length, s1) =>
        if length < 4 then false
        else
          match readUint32 s1 o with
          | .error _ => false
          | .ok (id, s2) =>
            if id = 0xFFFFFFFF then scanReachesEndLoop o pc fuel (s2.drop (length - 4))
            else if length < 20 then false
            else
              match readUint64 s2 o with
              | .error _ => false
              | .ok (pcstart, s3) =>
                match readUint64 s3 o with
                | .error _ => false
                | .ok (pccount, s4) =>
                  if pcstart ≤ pc ∧ pc < (pcstart + pccount) % 2^64 then false
                  else scanReachesEndLoop o pc fuel (s4.drop (length - 20))

/-- Does the record scan for pc run off the end of the region without a match? -/
def Data.scanReachesEnd (d : Data) (pc : Nat) : Bool :=
  scanReachesEndLoop d.order pc (d.frame.length + 1) d.frame

/-- Specification-side predicate, following the spec's words: the CIE initial
instruction stream is consumed exactly to end-of-stream at an instruction
boundary, every accepted instruction complete together with its operands. -/
def updateConsumesCleanly (returnColumn : Nat) : Nat → List Nat → Bool
  | 0, _ => false
  | _ + 1, [] => true
  | fuel + 1, b :: rest =>
    if b = dw_CFA_def_cfa then
      match parseUnsignedLEB128 rest with
      | none => false
      | some (_, rest1) =>
        match parseUnsignedLEB128 rest1 with
        | none => false
        | some (_, rest2) => updateConsumesCleanly returnColumn fuel rest2
    else if b = dw_CFA_nop then updateConsumesCleanly returnColumn fuel rest
    else if b = (dw_CFA_offset + returnColumn) % 256 then
      match parseSignedLEB128 rest with
      | none => false
      | some (_, rest1) => updateConsumesCleanly returnColumn fuel rest1
    else false

/-- Example frame-information region: one CIE (code-align 1, data-align -8,
return column 16, initial instruction define-CFA(7, 8)) followed by one FDE
covering [0x2000, 0x2100) whose instructions are
[inline-advance 0x23, define-CFA-offset-signed 2]. -/
def exampleRegion : List Nat :=
  [12, 0, 0, 0,
   0xFF, 0xFF, 0xFF, 0xFF,
   3, 0, 1, 0x78, 0x10,
   0x0c, 0x07, 0x08,
   23, 0, 0, 0,
   0, 0, 0, 0,
   0x00, 0x20, 0, 0, 0, 0, 0, 0,
   0x00, 0x01, 0, 0, 0, 0, 0, 0,
   0x63, 0x13, 0x02]

/-- The example region wrapped as a little-endian Data value. -/
def exampleData : Data := { frame := exampleRegion, order := .little }

/-- Working CIE used to demonstrate the replay of opcode byte 0x80. -/
def exampleCIE80 : CommonInformationEntry :=
  { CodeAlignmentFactor := 1, DataAlignmentFactor := -8, ReturnColumn := 16,
    InitialLocation := 0x2000, AddressRange := 0x100, Instructions := [0x80],
    StackRegister := 7, StackOffset := 8, ColumnValue := 0, order := .little }

/-- Region whose single CIE record ends in the middle of a define-CFA
instruction: the register operand is present, the offset operand is missing. -/
def truncatedCIERegion : List Nat :=
  [11, 0, 0, 0,
   0xFF, 0xFF, 0xFF, 0xFF,
   3, 0, 1, 0x78, 0x10,
   0x0c, 0x07]

/-- CIE record carrying version byte 4. -/
def badVersionRegion : List Nat :=
  [10, 0, 0, 0, 0xFF, 0xFF, 0xFF, 0xFF, 4, 0, 1, 0x78, 0x10, 0]

/-- CIE record carrying a non-zero augmentation byte. -/
def badAugRegion : List Nat :=
  [10, 0, 0, 0, 0xFF, 0xFF, 0xFF, 0xFF, 3, 1, 1, 0x78, 0x10, 0]

theorem dw_LEB_BITS_eq : dw_LEB_BITS = 127 := by decide

theorem dw_LEB_EXTENSION_eq : dw_LEB_EXTENSION = 128 := rfl

theorem and_dwLEBBITS (b : Nat) : b &&& dw_LEB_BITS = b % 128 := by
  rw [dw_LEB_BITS_eq]
  have h := Nat.and_pow_two_sub_one_eq_mod b 7
  norm_num at h
  exact h

theorem and_dwLEBEXT (b : Nat) : b &&& dw_LEB_EXTENSION = (b.testBit 7).toNat * 128 := by
  rw [dw_LEB_EXTENSION_eq]
  have h := Nat.and_two_pow b 7
  norm_num at h
  exact h

theorem byte_and_EXT {b : Nat} (h : b < 128) : b &&& dw_LEB_EXTENSION = 0 := by
  rw [and_dwLEBEXT, Nat.testBit_lt_two_pow (by simpa using h)]
  simp

theorem bytec_and_EXT {b : Nat} (h : b < 128) : (b + 128) &&& dw_LEB_EXTENSION = 128 := by
  rw [and_dwLEBEXT]
  have e : b + 128 = 2^7 * 1 + b := by omega
  rw [e, Nat.testBit_mul_pow_two_add 1 (by simpa using h) 7]
  simp

theorem testBit6_of_lt {b : Nat} (h : b < 128) : b.testBit 6 = decide (64 ≤ b) := by
  rw [Nat.testBit_to_div_mod, decide_eq_decide]
  omega

theorem lor_mul_pow {n : Nat} (x s : Nat) (h : n < 2^s) : n ||| x * 2^s = n + x * 2^s := by
  rw [Nat.lor_comm, Nat.mul_comm x, ← Nat.mul_add_lt_is_or h, Nat.add_comm]

theorem lor_shift_mod (n g s : Nat) (h1 : n < 2^s) (h2 : n < 2^64) :
    (g <<< s) % 2^64 ||| n = (n + g * 2^s) % 2^64 := by
  rw [Nat.shiftLeft_eq]
  rcases Nat.lt_or_ge s 64 with hs | hs
  · have hsplit : (2:Nat)^(64 - s) * 2^s = 2^64 := by
      rw [← pow_add]
      congr 1
      omega
    have hmod : g * 2^s % 2^64 = g % 2^(64 - s) * 2^s := by
      conv_lhs => rw [← hsplit]
      exact Nat.mul_mod_mul_right _ _ _
    rw [hmod, Nat.lor_comm, lor_mul_pow _ _ h1]
    have hdm := Nat.div_add_mod g (2^(64 - s))
    have hlt : g % 2^(64 - s) * 2^s + 2^s ≤ 2^64 := by
      have hb : g % 2^(64 - s) < 2^(64 - s) := Nat.mod_lt _ (Nat.two_pow_pos _)
      calc g % 2^(64 - s) * 2^s + 2^s = (g % 2^(64 - s) + 1) * 2^s := by ring
        _ ≤ 2^(64 - s) * 2^s := Nat.mul_le_mul_right _ hb
        _ = 2^64 := hsplit
    have hfin : n + g % 2^(64 - s) * 2^s < 2^64 := by omega
    have expand : n + g * 2^s = n + g % 2^(64 - s) * 2^s + g / 2^(64 - s) * 2^64 := by
      calc n + g * 2^s
          = n + (2^(64 - s) * (g / 2^(64 - s)) + g % 2^(64 - s)) * 2^s := by rw [hdm]
        _ = n + g % 2^(64 - s) * 2^s + g / 2^(64 - s) * (2^(64 - s) * 2^s) := by ring
        _ = n + g % 2^(64 - s) * 2^s + g / 2^(64 - s) * 2^64 := by rw [hsplit]
    rw [expand, Nat.add_mul_mod_self_right]
    exact (Nat.mod_eq_of_lt hfin).symm
  · have hz : g * 2^s % 2^64 = 0 :=
      Nat.mod_eq_zero_of_dvd (Dvd.dvd.mul_left (pow_dvd_pow 2 hs) g)
    rw [hz, Nat.zero_or]
    have hsplit : (2:Nat)^s = 2^(s - 64) * 2^64 := by
      rw [← pow_add]
      congr 1
      omega
    rw [hsplit, ← Nat.mul_assoc, Nat.add_mul_mod_self_right, Nat.mod_eq_of_lt h2]

theorem lor_shift_bound (n g s : Nat) (h1 : n < 2^s) (h2 : n < 2^64) (hg : g < 128) :
    (g <<< s) % 2^64 ||| n < 2^(s + 7) ∧ (g <<< s) % 2^64 ||| n < 2^64 := by
  rw [lor_shift_mod n g s h1 h2]
  have hmul : g * 2^s ≤ 127 * 2^s := Nat.mul_le_mul_right _ (by omega)
  have hpow : (2:Nat)^(s + 7) = 128 * 2^s := by
    rw [pow_add]
    ring
  constructor
  · apply Nat.lt_of_le_of_lt (Nat.mod_le _ _)
    rw [hpow]
    omega
  · exact Nat.mod_lt _ (by positivity)

theorem parseUnsignedLEB128Loop_spec (bs : List Nat) :
    ∀ (last : Nat) (rest : List Nat) (n shift : Nat),
      (∀ b ∈ bs, b &&& dw_LEB_EXTENSION ≠ 0) → last &&& dw_LEB_EXTENSION = 0 →
      n < 2^shift → n < 2^64 →
      parseUnsignedLEB128Loop (bs ++ last :: rest) n shift =
        some ((n + lebValue (bs ++ [last]) * 2^shift) % 2^64, rest) := by
  induction bs with
  | nil =>
    intro last rest n shift _ hlast h1 h2
    simp only [List.nil_append, parseUnsignedLEB128Loop, lebValue]
    rw [if_pos hlast, lor_shift_mod n (last &&& dw_LEB_BITS) shift h1 h2]
    norm_num
  | cons b bs ih =>
    intro last rest n shift hbs hlast h1 h2
    have hb : b &&& dw_LEB_EXTENSION ≠ 0 := hbs b (List.mem_cons_self b bs)
    have hbs2 : ∀ x ∈ bs, x &&& dw_LEB_EXTENSION ≠ 0 := fun x hx => hbs x (List.mem_cons_of_mem _ hx)
    simp only [List.cons_append, parseUnsignedLEB128Loop, lebValue, List.append_eq]
    rw [if_neg hb]
    have hg : b &&& dw_LEB_BITS < 128 := by
      rw [and_dwLEBBITS]
      omega
    obtain ⟨hlt7, hlt64⟩ := lor_shift_bound n (b &&& dw_LEB_BITS) shift h1 h2 hg
    rw [ih _ _ _ _ hbs2 hlast hlt7 hlt64, lor_shift_mod n (b &&& dw_LEB_BITS) shift h1 h2]
    congr 2
    rw [Nat.mod_add_mod]
    congr 1
    rw [pow_add]
    ring

/-- C10: for every byte sequence whose unsigned varint encoding terminates (a
byte with a clear continuation bit is reached before the cursor is exhausted),
parseUnsignedLEB128 never reports an overflow error — it returns a value — and
the returned value equals the sum over all consumed 7-bit groups of
group i * 2^(7*i), reduced modulo 2^64; groups whose shift position is 64 or
greater contribute nothing, so overlong terminated encodings decode silently. -/
theorem c10_unsigned_varint_mod64 (bs : List Nat) (last : Nat) (rest : List Nat)
    (hbs : ∀ b ∈ bs, b &&& dw_LEB_EXTENSION ≠ 0) (hlast : last &&& dw_LEB_EXTENSION = 0) :
    parseUnsignedLEB128 (bs ++ last :: rest) = some (lebValue (bs ++ [last]) % 2^64, rest) := by
  unfold parseUnsignedLEB128
  rw [parseUnsignedLEB128Loop_spec bs last rest 0 0 hbs hlast (by norm_num) (by norm_num)]
  norm_num

/-- Witness for C10 at a concrete two-byte encoding. -/
theorem c10_unsigned_varint_mod64_witness :
    parseUnsignedLEB128 ([0x85] ++ 0x03 :: [0x99]) = some (lebValue ([0x85] ++ [0x03]) % 2^64, [0x99]) :=
  c10_unsigned_varint_mod64 [0x85] 0x03 [0x99] (by decide) (by decide)

theorem int64OfBits_of_lt {n : Nat} (h : n < 2^63) : int64OfBits n = (n : Int) := by
  unfold int64OfBits
  rw [Nat.mod_eq_of_lt (lt_trans h (by norm_num)), if_pos h]

theorem int64OfBits_congr (k : Nat) : (int64OfBits k - (k : Int)) % 2^64 = 0 := by
  unfold int64OfBits
  split <;> omega

theorem int64Wrap_congr {x y : Int} (h : (x - y) % 2^64 = 0) : int64Wrap x = int64Wrap y := by
  unfold int64Wrap
  have e : x % 2^64 = y % 2^64 := by omega
  rw [e]

theorem int64Wrap_eq_self {x : Int} (h1 : -(2^63) ≤ x) (h2 : x < 2^63) : int64Wrap x = x := by
  unfold int64Wrap int64OfBits
  split <;> omega

theorem parseSignedLEB128Loop_spec :
    ∀ (fuel : Nat) (v : Int) (n shift : Nat) (rest : List Nat),
      n < 2^shift → shift % 7 = 0 → shift ≤ 63 → shift + 7 * fuel ≤ 70 →
      1 ≤ fuel → -(2^(7 * fuel - 1)) ≤ v → v < 2^(7 * fuel - 1) →
      parseSignedLEB128Loop (sleb128EncodeAux fuel v ++ rest) n shift =
        some (int64Wrap ((n : Int) + v * 2^shift), rest) := by
  intro fuel
  induction fuel with
  | zero =>
    intro v n shift rest _ _ _ _ h5 _ _
    exact absurd h5 (by omega)
  | succ f ih =>
    intro v n shift rest h1 h7 h63 h70 _ hlo hhi
    have h2 : n < 2^64 := lt_of_lt_of_le h1 (Nat.pow_le_pow_right (by norm_num) (by omega))
    have hb0 : 0 ≤ v % 128 := by omega
    have hb1 : v % 128 < 128 := by omega
    have hveq : v = 128 * (v / 128) + ((v % 128).toNat : Int) := by omega
    have hblt : (v % 128).toNat < 128 := by omega
    simp only [sleb128EncodeAux]
    by_cases hterm :
        (v / 128 = 0 ∧ (v % 128).toNat < 64) ∨ (v / 128 = -1 ∧ 64 ≤ (v % 128).toNat)
    · rw [if_pos hterm]
      set b := (v % 128).toNat with hbdef
      simp only [List.cons_append, List.nil_append, List.append_eq, parseSignedLEB128Loop]
      rw [if_pos (byte_and_EXT hblt), and_dwLEBBITS, Nat.mod_eq_of_lt hblt]
      rcases (by omega : shift ≤ 56 ∨ shift = 63) with hs | hs
      · -- no truncation: total shifted bits stay below 64
        have hps : (2:Nat)^(shift + 7) = 128 * 2^shift := by
          rw [pow_add]
          ring
        have hps63 : (2:Nat)^(shift + 7) ≤ 2^63 := Nat.pow_le_pow_right (by norm_num) (by omega)
        have hmulb : b * 2^shift ≤ 127 * 2^shift := Nat.mul_le_mul_right _ (by omega)
        have hlt63 : n + b * 2^shift < 2^63 := by
          rw [hps] at hps63
          omega
        have hn2 : (b <<< shift) % 2^64 ||| n = n + b * 2^shift := by
          rw [lor_shift_mod n b shift h1 h2]
          exact Nat.mod_eq_of_lt (by norm_num at hlt63 ⊢; omega)
        have hsign : (1 <<< (shift + 7 - 1)) % 2^64 = 2^(shift + 6) := by
          rw [show shift + 7 - 1 = shift + 6 by omega, Nat.shiftLeft_eq, one_mul]
          exact Nat.mod_eq_of_lt (Nat.pow_lt_pow_right (by norm_num) (by omega))
        have htest : (n + b * 2^shift) &&& 2^(shift + 6) = (decide (64 ≤ b)).toNat * 2^(shift + 6) := by
          rw [show n + b * 2^shift = 2^shift * b + n from by ring, Nat.and_two_pow,
            Nat.testBit_mul_pow_two_add b h1 (shift + 6), if_neg (by omega),
            show shift + 6 - shift = 6 from by omega, testBit6_of_lt hblt]
        rw [hn2, hsign, htest]
        rcases hterm with ⟨hv0, hb64⟩ | ⟨hv1, hb64⟩
        · have hv : v = (b : Int) := by omega
          rw [if_neg (by simp [hb64])]
          rw [int64OfBits_of_lt hlt63, hv,
            int64Wrap_eq_self
              (by have h0 : (0:Int) ≤ (n : Int) + (b : Int) * 2^shift := by positivity
                  omega)
              (by exact_mod_cast hlt63)]
          congr 2
          push_cast
          ring
        · have hv : v = (b : Int) - 128 := by omega
          rw [if_pos (by simp [hb64])]
          have hshl : (1 <<< (shift + 7)) % 2^64 = 2^(shift + 7) := by
            rw [Nat.shiftLeft_eq, one_mul]
            exact Nat.mod_eq_of_lt (lt_of_le_of_lt hps63 (by norm_num))
          rw [hshl, int64OfBits_of_lt hlt63]
          have hwrap : int64Wrap (((n + b * 2^shift : Nat) : Int) - int64OfBits (2^(shift + 7))) =
              int64Wrap ((n : Int) + v * 2^shift) := by
            apply int64Wrap_congr
            have hc := int64OfBits_congr (2^(shift + 7))
            have hid : ((n + b * 2^shift : Nat) : Int) - int64OfBits (2^(shift + 7)) -
                ((n : Int) + v * 2^shift) =
                -(int64OfBits (2^(shift + 7)) - ((2^(shift + 7) : Nat) : Int)) := by
              rw [hv]
              push_cast
              ring
            rw [hid]
            omega
          rw [hwrap]
      · -- shift = 63: the last group is truncated by the 64-bit accumulator
        subst hs
        have hn2 : (b <<< 63) % 2^64 ||| n = (n + b * 2^63) % 2^64 :=
          lor_shift_mod n b 63 h1 h2
        have hsign : (1 <<< (63 + 7 - 1)) % 2^64 = 0 := by
          rw [Nat.shiftLeft_eq, one_mul]
          norm_num
        rw [hn2, hsign, if_neg (by simp)]
        rcases hterm with ⟨hv0, hb64⟩ | ⟨hv1, hb64⟩
        · have hv : v = (b : Int) := by omega
          have harg : (n + b * 2^63) % 2^64 = (((n : Int) + v * 2^63) % 2^64).toNat := by
            rw [hv]
            omega
          simp only [int64Wrap]
          rw [harg]
        · have hv : v = (b : Int) - 128 := by omega
          have harg : (n + b * 2^63) % 2^64 = (((n : Int) + v * 2^63) % 2^64).toNat := by
            rw [hv]
            omega
          simp only [int64Wrap]
          rw [harg]
    · rw [if_neg hterm]
      have hf1 : 1 ≤ f := by
        rcases Nat.eq_zero_or_pos f with hf0 | hf1
        · subst hf0
          norm_num at hlo hhi
          exact absurd (by omega :
            (v / 128 = 0 ∧ (v % 128).toNat < 64) ∨
              (v / 128 = -1 ∧ 64 ≤ (v % 128).toNat)) hterm
        · exact hf1
      have hshift56 : shift ≤ 56 := by omega
      set b := (v % 128).toNat with hbdef
      simp only [List.cons_append, parseSignedLEB128Loop, List.append_eq]
      rw [if_neg (by rw [bytec_and_EXT hblt]; norm_num), and_dwLEBBITS,
        show (b + 128) % 128 = b by omega]
      have hps : (2:Nat)^(shift + 7) = 128 * 2^shift := by
        rw [pow_add]
        ring
      have hps63 : (2:Nat)^(shift + 7) ≤ 2^63 := Nat.pow_le_pow_right (by norm_num) (by omega)
      have hmulb : b * 2^shift ≤ 127 * 2^shift := Nat.mul_le_mul_right _ (by omega)
      have hlt63 : n + b * 2^shift < 2^63 := by
        rw [hps] at hps63
        omega
      have hn2 : (b <<< shift) % 2^64 ||| n = n + b * 2^shift := by
        rw [lor_shift_mod n b shift h1 h2]
        exact Nat.mod_eq_of_lt (by norm_num at hlt63 ⊢; omega)
      rw [hn2]
      obtain ⟨k, rfl⟩ : ∃ k, f = k + 1 := ⟨f - 1, by omega⟩
      have hpowk : (2:Int)^(7 * (k + 1 + 1) - 1) = 128 * 2^(7 * (k + 1) - 1) := by
        rw [show 7 * (k + 1 + 1) - 1 = 7 + (7 * (k + 1) - 1) by omega, pow_add]
        norm_num
      have hlo2 : -(2^(7 * (k + 1) - 1)) ≤ v / 128 := by
        rw [hpowk] at hlo
        omega
      have hhi2 : v / 128 < 2^(7 * (k + 1) - 1) := by
        rw [hpowk] at hhi
        omega
      rw [ih (v / 128) (n + b * 2^shift) (shift + 7) rest
        (by rw [hps]; omega) (by omega) (by omega) (by omega) hf1 hlo2 hhi2]
      have hpsi : (2:Int)^(shift + 7) = 128 * 2^shift := by
        rw [pow_add]
        ring
      have harg : ((n + b * 2^shift : Nat) : Int) + v / 128 * 2^(shift + 7) =
          (n : Int) + v * 2^shift := by
        conv_rhs => rw [hveq]
        rw [hpsi]
        push_cast
        ring
      rw [harg]

/-- C5: for every 64-bit signed integer, decoding the canonical signed base-128
encoding returns that integer: parseSignedLEB128 reads 7-bit groups
least-significant first until a byte with a clear continuation bit and
sign-extends from the last consumed group, and this round-trips over the whole
int64 range, including zero, negative values and the extreme magnitudes. -/
theorem c5_sleb_roundtrip (v : Int) (rest : List Nat)
    (h1 : -(2^63) ≤ v) (h2 : v < 2^63) :
    parseSignedLEB128 (sleb128Encode v ++ rest) = some (v, rest) := by
  unfold parseSignedLEB128 sleb128Encode
  rw [parseSignedLEB128Loop_spec 10 v 0 0 rest (by norm_num) (by norm_num) (by norm_num)
    (by norm_num) (by norm_num) (by norm_num; omega) (by norm_num; omega)]
  rw [int64Wrap_eq_self (by omega) (by omega)]
  norm_num

/-- Witness for C5 at the minimal encodable value. -/
theorem c5_sleb_roundtrip_witness :
    parseSignedLEB128 (sleb128Encode (-(2^63)) ++ []) = some (-(2^63), []) :=
  c5_sleb_roundtrip (-(2^63)) [] (by norm_num) (by norm_num)

/-- C6: the expression evaluator fails on structural violations and never
returns a value for them: exhausting the byte stream with a stack depth other
than one (the empty expression included, depth zero) is the invalid-expression
error; reaching the add opcode with fewer than two stack entries fails
immediately with the same insufficient-operands error; and a final stack depth
of exactly one returns the single value reinterpreted as an address-sized
unsigned integer. -/
theorem c6_loclist_structural :
    (∀ info : locInfo, parseLocList [] info = some (.error .invalidLocList)) ∧
    (∀ (fuel : Nat) (stack : List Int) (info : locInfo), stack.length ≠ 1 →
      parseLocListLoop info (fuel + 1) [] stack = some (.error .invalidLocList)) ∧
    (∀ (fuel : Nat) (stream : List Nat) (stack : List Int) (info : locInfo), stack.length < 2 →
      parseLocListLoop info (fuel + 1) (dw_OP_plus :: stream) stack = some (.error .invalidLocList)) ∧
    (∀ (fuel : Nat) (v : Int) (info : locInfo),
      parseLocListLoop info (fuel + 1) [] [v] = some (.ok (uint64OfInt v))) := by
  refine ⟨fun info => rfl, ?_, ?_, fun fuel v info => rfl⟩
  · intro fuel stack info h
    rcases stack with _ | ⟨a, _ | ⟨c, s⟩⟩
    · rfl
    · exact absurd rfl h
    · rfl
  · intro fuel stream stack info h
    rcases stack with _ | ⟨a, _ | ⟨c, s⟩⟩
    · rfl
    · rfl
    · simp only [List.length_cons] at h
      omega

/-- Witness for C6 at concrete stacks of depth two and depth one. -/
theorem c6_loclist_structural_witness :
    parseLocListLoop ⟨0⟩ 1 [] [1, 2] = some (.error .invalidLocList) ∧
    parseLocListLoop ⟨0⟩ 1 [dw_OP_plus] [5] = some (.error .invalidLocList) :=
  ⟨c6_loclist_structural.2.1 0 [1, 2] ⟨0⟩ (by decide),
   c6_loclist_structural.2.2.1 0 [] [5] ⟨0⟩ (by decide)⟩

/-- C7: the expression evaluator implements exactly three opcodes — push signed
constant, add, and push canonical-frame-address — so that
[pushConst 5, pushConst 3, add] evaluates to 8, [pushCFA] with canonical frame
address 0x2000 evaluates to 0x2000, and any other opcode reached fails
immediately with the unsupported-operation error. -/
theorem c7_loclist_opcodes :
    (∀ info : locInfo,
      parseLocList [dw_OP_consts, 5, dw_OP_consts, 3, dw_OP_plus] info = some (.ok 8)) ∧
    parseLocList [dw_OP_call_frame_cfa] ⟨0x2000⟩ = some (.ok 0x2000) ∧
    (∀ (fuel : Nat) (b : Nat) (stream : List Nat) (stack : List Int) (info : locInfo),
      b ≠ dw_OP_consts → b ≠ dw_OP_plus → b ≠ dw_OP_call_frame_cfa →
      parseLocListLoop info (fuel + 1) (b :: stream) stack = some (.error .unsupportedLocOp)) := by
  refine ⟨fun info => rfl, rfl, ?_⟩
  intro fuel b stream stack info h1 h2 h3
  simp only [parseLocListLoop]
  rw [if_neg h1, if_neg h2, if_neg h3]

/-- Witness for C7 at the unsupported opcode 0x96 (the nop expression opcode). -/
theorem c7_loclist_opcodes_witness :
    parseLocListLoop ⟨0⟩ 1 [0x96] [] = some (.error .unsupportedLocOp) :=
  c7_loclist_opcodes.2.2 0 0x96 [] [] ⟨0⟩ (by decide) (by decide) (by decide)

/-- C2: in the per-FDE replay, the define-CFA-offset-signed opcode decodes one
signed varint delta and sets offset := delta * dataAlignmentFactor (as wrapping
int64 arithmetic), leaves loc unchanged, and is applied whether or not loc
already exceeds pc; any other opcode is a location-advance, and when loc > pc
the replay stops before processing it, returning the last committed offset as
address-sized(signed(sp) + offset). -/
theorem c2_replay_offset_unconditional :
    (∀ (cie : CommonInformationEntry) (pc sp fuel : Nat) (stream : List Nat)
       (loc : Nat) (offset delta : Int) (rest1 : List Nat),
      parseSignedLEB128 stream = some (delta, rest1) →
      cfaReplayLoop cie pc sp (fuel + 1) (dw_CFA_def_cfa_offset_sf :: stream) loc offset =
        cfaReplayLoop cie pc sp fuel rest1 loc (int64Wrap (delta * cie.DataAlignmentFactor))) ∧
    (∀ (cie : CommonInformationEntry) (pc sp fuel b : Nat) (stream : List Nat)
       (loc : Nat) (offset : Int),
      b ≠ dw_CFA_def_cfa_offset_sf → loc > pc →
      cfaReplayLoop cie pc sp (fuel + 1) (b :: stream) loc offset =
        some (.ok (uint64OfInt (int64Wrap (int64OfBits sp + offset))))) := by
  constructor
  · intro cie pc sp fuel stream loc offset delta rest1 h
    simp only [cfaReplayLoop, h, if_true]
  · intro cie pc sp fuel b stream loc offset hb hloc
    simp only [cfaReplayLoop]
    rw [if_neg hb, if_pos hloc]

/-- Witness for C2: offset opcode applied with loc far past pc, and an
advance opcode stopping the replay. -/
theorem c2_replay_offset_unconditional_witness :
    cfaReplayLoop exampleCIE80 5 100 2 [dw_CFA_def_cfa_offset_sf, 2] 50 7 =
      cfaReplayLoop exampleCIE80 5 100 1 [] 50 (int64Wrap (2 * exampleCIE80.DataAlignmentFactor)) ∧
    cfaReplayLoop exampleCIE80 5 100 2 [0x63] 50 7 =
      some (.ok (uint64OfInt (int64Wrap (int64OfBits 100 + 7)))) :=
  ⟨c2_replay_offset_unconditional.1 exampleCIE80 5 100 1 [2] 50 7 2 [] (by decide),
   c2_replay_offset_unconditional.2 exampleCIE80 5 100 1 0x63 [] 50 7 (by decide) (by decide)⟩

/-- C3 is a code bug: the replay's inline-advance guard accepts opcode byte 0x80
inclusively (the source tests instruction <= 0x80), although the source's own
constant table assigns 0x80 to the distinct dw_CFA_offset family; replaying the
stream [0x80] with loc = pc therefore advances loc by 0x40 * codeAlignmentFactor
and succeeds instead of failing with the unknown-operation error. -/
theorem c3_opcode80_code_bug :
    CommonInformationEntry.CanonicalFrameAddress exampleCIE80 0x2000 0x10000 = some (.ok 0x10008) ∧
    CommonInformationEntry.CanonicalFrameAddress exampleCIE80 0x2000 0x10000 ≠
      some (.error (.unknownCFAOp 0x80)) := by
  have he : CommonInformationEntry.CanonicalFrameAddress exampleCIE80 0x2000 0x10000 =
      some (.ok 0x10008) := rfl
  refine ⟨he, ?_⟩
  rw [he]
  simp

/-- C8: a common-descriptor record whose version byte is not 3 makes
parseCommonInformationEntry fail with the unsupported-version error, and a
record with version 3 but a non-zero augmentation byte fails with the
unsupported-augmentation error, whatever the remaining bytes of the record
contain — no alignment factors, return column or baseline rule are decoded. -/
theorem c8_cie_version_augmentation :
    (∀ (d : Data) (id len : Nat) (s1 entry t1 : List Nat) (v : Nat) (t2 : List Nat),
      readUint32 (d.frame.drop id) d.order = .ok (len, s1) →
      readBuf len s1 = .ok entry →
      readUint32 entry d.order = .ok (0xFFFFFFFF, t1) →
      4 ≤ len →
      t1 = v :: t2 →
      v ≠ 3 →
      parseCommonInformationEntry d id = .error (.unsupportedVersion v)) ∧
    (∀ (d : Data) (id len : Nat) (s1 entry t1 : List Nat) (a : Nat) (t3 : List Nat),
      readUint32 (d.frame.drop id) d.order = .ok (len, s1) →
      readBuf len s1 = .ok entry →
      readUint32 entry d.order = .ok (0xFFFFFFFF, t1) →
      4 ≤ len →
      t1 = 3 :: a :: t3 →
      a ≠ 0 →
      parseCommonInformationEntry d id = .error .unsupportedAugmentation) := by
  constructor
  · intro d id len s1 entry t1 v t2 hr1 hrb hr2 hlen ht1 hv
    subst ht1
    simp only [parseCommonInformationEntry, hr1, hrb, hr2]
    rw [if_neg (by simp; omega), if_pos hv]
  · intro d id len s1 entry t1 a t3 hr1 hrb hr2 hlen ht1 ha
    subst ht1
    simp only [parseCommonInformationEntry, hr1, hrb, hr2]
    rw [if_neg (by simp; omega), if_neg (by simp), if_pos ha]

/-- Witness for C8 at the concrete version-4 and augmentation-1 records. -/
theorem c8_cie_version_augmentation_witness :
    parseCommonInformationEntry { frame := badVersionRegion, order := .little } 0 =
      .error (.unsupportedVersion 4) ∧
    parseCommonInformationEntry { frame := badAugRegion, order := .little } 0 =
      .error .unsupportedAugmentation :=
  ⟨c8_cie_version_augmentation.1 { frame := badVersionRegion, order := .little } 0 10
      [0xFF, 0xFF, 0xFF, 0xFF, 4, 0, 1, 0x78, 0x10, 0]
      [0xFF, 0xFF, 0xFF, 0xFF, 4, 0, 1, 0x78, 0x10, 0]
      [4, 0, 1, 0x78, 0x10, 0] 4 [0, 1, 0x78, 0x10, 0] rfl rfl rfl (by decide) rfl (by decide),
   c8_cie_version_augmentation.2 { frame := badAugRegion, order := .little } 0 10
      [0xFF, 0xFF, 0xFF, 0xFF, 3, 1, 1, 0x78, 0x10, 0]
      [0xFF, 0xFF, 0xFF, 0xFF, 3, 1, 1, 0x78, 0x10, 0]
      [3, 1, 1, 0x78, 0x10, 0] 1 [1, 0x78, 0x10, 0] rfl rfl rfl (by decide) rfl (by decide)⟩

/-- C9 (amended): the baseline interpreter over the CIE initial instructions
accepts only define-CFA, no-op and the offset(returnColumn) opcode, failing on
any other opcode with the unsupported-CFA-operation error; it reports success
exactly when it runs into end-of-stream, but end-of-stream inside an
instruction's operands is also reported as success (the io.EOF of the operand
parse), with the partially decoded instruction's effects dropped. -/
theorem c9_cie_update_boundary :
    (∀ (fuel : Nat) (cie : CommonInformationEntry) (b : Nat) (rest : List Nat),
      b ≠ dw_CFA_def_cfa → b ≠ dw_CFA_nop → b ≠ (dw_CFA_offset + cie.ReturnColumn) % 256 →
      cieUpdateLoop (fuel + 1) cie (b :: rest) = some (.error (.unsupportedCFAOp b))) ∧
    (∀ (fuel : Nat) (cie : CommonInformationEntry),
      cieUpdateLoop (fuel + 1) cie [] = some (.ok cie)) ∧
    (∀ (fuel : Nat) (cie : CommonInformationEntry) (rest : List Nat),
      parseUnsignedLEB128 rest = none →
      cieUpdateLoop (fuel + 1) cie (dw_CFA_def_cfa :: rest) = some (.ok cie)) ∧
    (∀ (fuel : Nat) (cie : CommonInformationEntry) (reg : Nat) (rest rest1 : List Nat),
      parseUnsignedLEB128 rest = some (reg, rest1) →
      parseUnsignedLEB128 rest1 = none →
      cieUpdateLoop (fuel + 1) cie (dw_CFA_def_cfa :: rest) = some (.ok cie)) := by
  refine ⟨?_, fun fuel cie => rfl, ?_, ?_⟩
  · intro fuel cie b rest h1 h2 h3
    simp only [cieUpdateLoop]
    rw [if_neg h1, if_neg h2, if_neg h3]
  · intro fuel cie rest h
    simp only [cieUpdateLoop, h, if_true]
  · intro fuel cie reg rest rest1 h1 h2
    simp only [cieUpdateLoop, h1, h2, if_true]

/-- Counterexample for C9: a region whose CIE ends inside the operands of a
define-CFA instruction is accepted, returning an entry whose baseline stack
register and offset were never set, although the clean-consumption predicate
rejects that instruction stream. -/
theorem c9_cie_update_boundary_counterexample :
    parseCommonInformationEntry { frame := truncatedCIERegion, order := .little } 0 =
      .ok { CodeAlignmentFactor := 1, DataAlignmentFactor := -8, ReturnColumn := 16,
            StackRegister := 0, StackOffset := 0 } ∧
    updateConsumesCleanly 16 3 [0x0c, 0x07] = false :=
  ⟨rfl, rfl⟩

/-- Witness for C9 at a concrete unsupported opcode and a concrete truncated
define-CFA stream. -/
theorem c9_cie_update_boundary_witness :
    cieUpdateLoop 1 exampleCIE80 [0x05] = some (.error (.unsupportedCFAOp 0x05)) ∧
    cieUpdateLoop 1 exampleCIE80 [dw_CFA_def_cfa, 0x07] = some (.ok exampleCIE80) :=
  ⟨c9_cie_update_boundary.1 0 exampleCIE80 0x05 [] (by decide) (by decide) (by decide),
   c9_cie_update_boundary.2.2.2 0 exampleCIE80 7 [0x07] [] (by decide) (by decide)⟩

theorem readUint32_length {s : List Nat} {o : ByteOrder} {x : Nat} {s1 : List Nat}
    (h : readUint32 s o = .ok (x, s1)) : s.length = s1.length + 4 := by
  rcases s with _ | ⟨b0, _ | ⟨b1, _ | ⟨b2, _ | ⟨b3, t⟩⟩⟩⟩
  · simp [readUint32] at h
  · simp [readUint32] at h
  · simp [readUint32] at h
  · simp [readUint32] at h
  · cases o <;>
      · simp only [readUint32, Except.ok.injEq, Prod.mk.injEq] at h
        rw [← h.2]
        simp

theorem readUint64_length {s : List Nat} {o : ByteOrder} {x : Nat} {s1 : List Nat}
    (h : readUint64 s o = .ok (x, s1)) : s.length = s1.length + 8 := by
  rcases s with _ | ⟨b0, _ | ⟨b1, _ | ⟨b2, _ | ⟨b3, _ | ⟨b4, _ | ⟨b5, _ | ⟨b6, _ | ⟨b7, t⟩⟩⟩⟩⟩⟩⟩⟩
  · simp [readUint64] at h
  · simp [readUint64] at h
  · simp [readUint64] at h
  · simp [readUint64] at h
  · simp [readUint64] at h
  · simp [readUint64] at h
  · simp [readUint64] at h
  · simp [readUint64] at h
  · cases o <;>
      · simp only [readUint64, Except.ok.injEq, Prod.mk.injEq] at h
        rw [← h.2]
        simp

theorem scan_uncovered :
    ∀ (fuel : Nat) (d : Data) (pc sp : Nat) (s : List Nat),
      s.length < fuel → scanCoversLoop d.order pc fuel s = false →
      ∃ e, cfaScanLoop d pc sp fuel s = some (.error e) := by
  intro fuel
  induction fuel with
  | zero =>
    intro d pc sp s hlen _
    omega
  | succ f ihf =>
    intro d pc sp s hlen hcov
    simp only [scanCoversLoop] at hcov
    simp only [cfaScanLoop]
    cases hr1 : readUint32 s d.order with
    | error e =>
      simp only [hr1]
      exact ⟨e, rfl⟩
    | ok p1 =>
      obtain ⟨length, s1⟩ := p1
      simp only [hr1] at hcov ⊢
      by_cases h4 : length < 4
      · rw [if_pos h4]
        exact ⟨_, rfl⟩
      · rw [if_neg h4]
        rw [if_neg h4] at hcov
        cases hr2 : readUint32 s1 d.order with
        | error e =>
          simp only [hr2]
          exact ⟨e, rfl⟩
        | ok p2 =>
          obtain ⟨id, s2⟩ := p2
          simp only [hr2] at hcov ⊢
          have hls1 := readUint32_length hr1
          have hls2 := readUint32_length hr2
          by_cases hid : id = 0xFFFFFFFF
          · rw [if_pos hid]
            rw [if_pos hid] at hcov
            exact ihf d pc sp _ (by have := List.length_drop (length - 4) s2; omega) hcov
          · rw [if_neg hid]
            rw [if_neg hid] at hcov
            by_cases h20 : length < 20
            · rw [if_pos h20]
              exact ⟨_, rfl⟩
            · rw [if_neg h20]
              rw [if_neg h20] at hcov
              cases hr3 : readUint64 s2 d.order with
              | error e =>
                simp only [hr3]
                exact ⟨e, rfl⟩
              | ok p3 =>
                obtain ⟨pcstart, s3⟩ := p3
                simp only [hr3] at hcov ⊢
                cases hr4 : readUint64 s3 d.order with
                | error e =>
                  simp only [hr4]
                  exact ⟨e, rfl⟩
                | ok p4 =>
                  obtain ⟨pccount, s4⟩ := p4
                  simp only [hr4] at hcov ⊢
                  have hls3 := readUint64_length hr3
                  have hls4 := readUint64_length hr4
                  by_cases hcont : pcstart ≤ pc ∧ pc < (pcstart + pccount) % 2^64
                  · rw [if_pos hcont] at hcov
                    exact absurd hcov (by simp)
                  · rw [if_neg hcont]
                    rw [if_neg hcont] at hcov
                    exact ihf d pc sp _ (by have := List.length_drop (length - 20) s4; omega) hcov

theorem scan_end_eof :
    ∀ (fuel : Nat) (d : Data) (pc sp : Nat) (s : List Nat),
      s.length < fuel → scanReachesEndLoop d.order pc fuel s = true →
      cfaScanLoop d pc sp fuel s = some (.error .eof) := by
  intro fuel
  induction fuel with
  | zero =>
    intro d pc sp s hlen _
    omega
  | succ f ihf =>
    intro d pc sp s hlen hend
    rcases s with _ | ⟨b, t⟩
    · rfl
    · simp only [scanReachesEndLoop] at hend
      simp only [cfaScanLoop]
      cases hr1 : readUint32 (b :: t) d.order with
      | error e =>
        simp only [hr1] at hend
        simp at hend
      | ok p1 =>
        obtain ⟨length, s1⟩ := p1
        simp only [hr1] at hend
        simp only [hr1]
        by_cases h4 : length < 4
        · rw [if_pos h4] at hend
          simp at hend
        · rw [if_neg h4] at hend
          rw [if_neg h4]
          cases hr2 : readUint32 s1 d.order with
          | error e =>
            simp only [hr2] at hend
            simp at hend
          | ok p2 =>
            obtain ⟨id, s2⟩ := p2
            simp only [hr2] at hend
            simp only [hr2]
            have hls1 := readUint32_length hr1
            have hls2 := readUint32_length hr2
            by_cases hid : id = 0xFFFFFFFF
            · rw [if_pos hid] at hend
              rw [if_pos hid]
              exact ihf d pc sp _ (by have := List.length_drop (length - 4) s2; omega) hend
            · rw [if_neg hid] at hend
              rw [if_neg hid]
              by_cases h20 : length < 20
              · rw [if_pos h20] at hend
                simp at hend
              · rw [if_neg h20] at hend
                rw [if_neg h20]
                cases hr3 : readUint64 s2 d.order with
                | error e =>
                  simp only [hr3] at hend
                  simp at hend
                | ok p3 =>
                  obtain ⟨pcstart, s3⟩ := p3
                  simp only [hr3] at hend
                  simp only [hr3]
                  cases hr4 : readUint64 s3 d.order with
                  | error e =>
                    simp only [hr4] at hend
                    simp at hend
                  | ok p4 =>
                    obtain ⟨pccount, s4⟩ := p4
                    simp only [hr4] at hend
                    simp only [hr4]
                    have hls3 := readUint64_length hr3
                    have hls4 := readUint64_length hr4
                    by_cases hcont : pcstart ≤ pc ∧ pc < (pcstart + pccount) % 2^64
                    · rw [if_pos hcont] at hend
                      simp at hend
                    · rw [if_neg hcont] at hend
                      rw [if_neg hcont]
                      exact ihf d pc sp _
                        (by have := List.length_drop (length - 20) s4; omega) hend

/-- C4 (amended): querying a pc not covered by any frame-description record
always produces an error and never an address value; and for every region whose
scan reaches the end without a match — consuming complete records down to an
empty remainder — the error surfaced is the bare end-of-input error of the next
header read (the not-found message in the source sits after an infinite loop
and is unreachable). -/
theorem c4_uncovered_errors :
    (∀ (d : Data) (pc sp : Nat), d.covers pc = false →
      ∃ e, Data.CanonicalFrameAddress d pc sp = some (.error e)) ∧
    (∀ (d : Data) (pc sp : Nat), d.scanReachesEnd pc = true →
      Data.CanonicalFrameAddress d pc sp = some (.error .eof)) := by
  constructor
  · intro d pc sp h
    exact scan_uncovered (d.frame.length + 1) d pc sp d.frame (by omega) h
  · intro d pc sp h
    exact scan_end_eof (d.frame.length + 1) d pc sp d.frame (by omega) h

/-- Witness for C4 at the example region and an uncovered pc: the scan skips the
CIE record, rejects the one FDE, runs off the end, and reports end-of-input. -/
theorem c4_uncovered_errors_witness :
    (∃ e, Data.CanonicalFrameAddress exampleData 0x5000 0x100 = some (.error e)) ∧
    Data.CanonicalFrameAddress exampleData 0x5000 0x100 = some (.error .eof) :=
  ⟨c4_uncovered_errors.1 exampleData 0x5000 0x100 (by decide),
   c4_uncovered_errors.2 exampleData 0x5000 0x100 (by decide)⟩

/-- Counterexample for C4: reaching the end of the region without a match
reports the bare end-of-input error, not the not-found error the claim names. -/
theorem c4_uncovered_errors_counterexample :
    Data.CanonicalFrameAddress { frame := [], order := .little } 0x5000 0x100 =
      some (.error .eof) ∧ DwarfError.eof ≠ DwarfError.notCovered :=
  ⟨rfl, by decide⟩

/-- C1 (amended): on the example region (CIE code-align 1, data-align -8,
baseline define-CFA(reg, 8); one FDE over [0x2000, 0x2100) with instructions
[inline-advance 0x23, define-CFA-offset-signed 2]) the query returns sp - 16 for
every pc in [0x2000, 0x2100): the define-CFA-offset-signed instruction is
applied unconditionally, so the baseline offset 8 is never the result, even for
pc below 0x2023. -/
theorem c1_cfa_example_region (pc sp : Nat) (h1 : 0x2000 ≤ pc) (h2 : pc < 0x2100)
    (h3 : 16 ≤ sp) (h4 : sp < 2^64) :
    Data.CanonicalFrameAddress exampleData pc sp = some (.ok (sp - 16)) := by
  have br0 : Data.CanonicalFrameAddress exampleData pc sp =
      cfaScanLoop exampleData pc sp 43
        [23, 0, 0, 0, 0, 0, 0, 0, 0x00, 0x20, 0, 0, 0, 0, 0, 0,
         0x00, 0x01, 0, 0, 0, 0, 0, 0, 0x63, 0x13, 0x02] := rfl
  have brA : cfaScanLoop exampleData pc sp 43
        [23, 0, 0, 0, 0, 0, 0, 0, 0x00, 0x20, 0, 0, 0, 0, 0, 0,
         0x00, 0x01, 0, 0, 0, 0, 0, 0, 0x63, 0x13, 0x02] =
      if 0x2000 ≤ pc ∧ pc < (0x2000 + 0x100) % 2^64 then
        CommonInformationEntry.CanonicalFrameAddress
          { CodeAlignmentFactor := 1, DataAlignmentFactor := -8, ReturnColumn := 16,
            InitialLocation := 0x2000, AddressRange := 0x100,
            Instructions := [0x63, 0x13, 0x02], StackRegister := 7, StackOffset := 8,
            ColumnValue := 0, order := .little } pc sp
      else cfaScanLoop exampleData pc sp 42 [] := rfl
  have hcond : 0x2000 ≤ pc ∧ pc < (0x2000 + 0x100) % 2^64 := by
    refine ⟨h1, ?_⟩
    have e : ((0x2000 + 0x100) % 2^64 : Nat) = 0x2100 := by norm_num
    rw [e]
    exact h2
  have brB : CommonInformationEntry.CanonicalFrameAddress
        { CodeAlignmentFactor := 1, DataAlignmentFactor := -8, ReturnColumn := 16,
          InitialLocation := 0x2000, AddressRange := 0x100,
          Instructions := [0x63, 0x13, 0x02], StackRegister := 7, StackOffset := 8,
          ColumnValue := 0, order := .little } pc sp =
      if 0x2000 > pc then some (.ok (uint64OfInt (int64Wrap (int64OfBits sp + 8))))
      else some (.ok (uint64OfInt (int64Wrap (int64OfBits sp + (-16))))) := rfl
  rw [br0, brA, if_pos hcond, brB, if_neg (by omega)]
  have final : uint64OfInt (int64Wrap (int64OfBits sp + (-16))) = sp - 16 := by
    unfold uint64OfInt int64Wrap int64OfBits
    split_ifs <;> omega
  rw [final]

/-- Witness for C1 at pc = 0x2010, sp = 0x10000. -/
theorem c1_cfa_example_region_witness :
    Data.CanonicalFrameAddress exampleData 0x2010 0x10000 = some (.ok (0x10000 - 16)) :=
  c1_cfa_example_region 0x2010 0x10000 (by decide) (by decide) (by decide) (by decide)

set_option maxRecDepth 10000 in
/-- Counterexample for C1: at pc = 0x2005, inside [0x2000, 0x2023), the query
returns sp - 16 = 0xFFF0, not the claimed sp + 8 = 0x10008. -/
theorem c1_cfa_example_region_counterexample :
    Data.CanonicalFrameAddress exampleData 0x2005 0x10000 = some (.ok 0xFFF0) ∧
    (0xFFF0 : Nat) ≠ 0x10000 + 8 :=
  ⟨rfl, by decide⟩

end GoDwarf
